import Mathlib

/-!
Verification of the yawn engine core against its specification.

The TypeScript sources are shallowly embedded as Lean definitions:
  - src/core/ecs/ecs.ts          : the columnar component store (ECS class)
  - src/core/renderer/scene.ts   : Scene.addMesh geometry preparation
  - src/core/gl/index.ts         : processAttribute and the loadModel index path
  - src/core/connection/*        : the array-encoded cross-context message protocol
  - src/level-editor/src/worker/mainWorker.js : the worker bootstrap handler

Mutable JS state is modelled by explicit state passing; nullable JS slots by
Option; thrown errors by Except.  JS objects used as ordered string-keyed maps
(for-in iteration follows insertion order for the non-integer keys used here)
are modelled by association lists in insertion order.
-/

set_option autoImplicit false

namespace Yawn

/-! ## Component store (src/core/ecs/ecs.ts)

A component column is an array of nullable values (`Array<CT[K] | null>`).
The store holds `components` (the ComponentMap, key "uid" first at
construction) and `componentDefaults`.  Entity ids pushed into the uid column
are numbers; the embedding is parameterised by the value type and an
injection `natVal` used only for those pushes. -/

abbrev Column (α : Type) := List (Option α)

structure Store (α : Type) where
  comps : List (String × Column α)
  defaults : List (String × Option α)
  deriving DecidableEq

/-- Constructor state: `components = { uid: [] }`, `componentDefaults = { uid: null }`. -/
def initialStore (α : Type) : Store α := ⟨[("uid", [])], [("uid", none)]⟩

/-- JS property read `components[k]` on the ComponentMap (first binding wins). -/
def lookupCol {α : Type} (comps : List (String × Column α)) (k : String) : Option (Column α) :=
  (comps.find? (fun p => p.1 == k)).map (fun p => p.2)

/-- Truthiness test used by the source (`this.components[key]` / `this.components[name]`):
an array value is truthy, an absent key is undefined hence falsy. -/
def containsKey {α : Type} (comps : List (String × Column α)) (k : String) : Bool :=
  comps.any (fun p => p.1 == k)

/-- Read of `componentDefaults[k]` (absent key yields undefined, conflated with null). -/
def lookupDefault {α : Type} (defaults : List (String × Option α)) (k : String) : Option α :=
  ((defaults.find? (fun p => p.1 == k)).map (fun p => p.2)).join

/-- The entity count: `this.components.uid.length`. -/
def entityCount {α : Type} (s : Store α) : Nat :=
  ((lookupCol s.comps "uid").getD []).length

/-- One push of `addEntity`: for the uid key, `push(uid.length)`; otherwise
`push(components[key] ?? componentDefaults[key])`. -/
def pushValue {α : Type} (natVal : Nat → α) (init : String → Option α)
    (defaults : List (String × Option α)) (k : String) (col : Column α) : Column α :=
  if k = "uid" then col ++ [some (natVal col.length)]
  else col ++ [(init k).orElse (fun _ => lookupDefault defaults k)]

/-- `ECS.addEntity` (ecs.ts lines 73-86): pushes one slot onto every registered
column in key order and returns `uid.length - 1` of the updated store. -/
def addEntity {α : Type} (natVal : Nat → α) (s : Store α) (init : String → Option α) :
    Store α × Nat :=
  let s2 : Store α :=
    ⟨s.comps.map (fun p => (p.1, pushValue natVal init s.defaults p.1 p.2)), s.defaults⟩
  (s2, entityCount s2 - 1)

/-- Write `componentDefaults[name] = defaultValue` (overwrite or append). -/
def setDefault {α : Type} (defaults : List (String × Option α)) (k : String) (v : Option α) :
    List (String × Option α) :=
  if defaults.any (fun p => p.1 == k)
  then defaults.map (fun p => if p.1 == k then (p.1, v) else p)
  else defaults ++ [(k, v)]

/-- `ECS.addComponent` (ecs.ts lines 91-103): throws if the name is already a
registered column, otherwise installs `new Array(uid.length).fill(fillValue)`
and records the default. -/
def addComponent {α : Type} (s : Store α) (name : String) (fill dflt : Option α) :
    Except String (Store α) :=
  if containsKey s.comps name then .error "Component already exists"
  else .ok ⟨s.comps ++ [(name, List.replicate (entityCount s) fill)],
            setDefault s.defaults name dflt⟩

/-! ### runSystems (ecs.ts lines 24-46)

The per-entity snapshot object `obj` maps every registered key to its slot
value at index i; a system returns null or a partial record (ordered key/value
pairs).  Updates are written to the live columns, but `obj` itself is built
once per entity, before the system loop, and never rebuilt. -/

abbrev Obj (α : Type) := String → Option α

abbrev System (α : Type) := Obj α → Option (List (String × Option α))

/-- Slot read `this.components[k][i]`; out-of-range and null both give none. -/
def getSlot {α : Type} (comps : List (String × Column α)) (k : String) (i : Nat) : Option α :=
  match lookupCol comps k with
  | some col => (col.get? i).join
  | none => none

/-- The snapshot object built at the top of an entity pass:
`obj[key] = this.components[key][i]` for every registered key. -/
def objAt {α : Type} (comps : List (String × Column α)) (i : Nat) : Obj α :=
  fun k => getSlot comps k i

/-- Slot write `this.components[k][i] = v` (registered columns only reach this;
within range under the length invariant). -/
def setSlot {α : Type} (comps : List (String × Column α)) (k : String) (i : Nat)
    (v : Option α) : List (String × Column α) :=
  comps.map (fun p => (p.1, if p.1 == k then p.2.set i v else p.2))

/-- Application of one system result: for each returned key in order, skip it
when the key has no registered column (the falsy-column guard), else overwrite
slot i. -/
def applyRes {α : Type} (i : Nat) :
    List (String × Option α) → List (String × Column α) → List (String × Column α)
  | [], comps => comps
  | kv :: rest, comps =>
    applyRes i rest (if containsKey comps kv.1 then setSlot comps kv.1 i kv.2 else comps)

/-- The inner system loop for one entity, with the fixed snapshot obj. -/
def runEntity {α : Type} (i : Nat) (obj : Obj α) :
    List (System α) → List (String × Column α) → List (String × Column α)
  | [], comps => comps
  | sys :: rest, comps =>
    runEntity i obj rest
      (match sys obj with
       | none => comps
       | some res => applyRes i res comps)

/-- The outer entity loop: for each listed index, build the snapshot from the
current columns, then run every system on it. -/
def runEntities {α : Type} (systems : List (System α)) :
    List Nat → List (String × Column α) → List (String × Column α)
  | [], comps => comps
  | i :: rest, comps => runEntities systems rest (runEntity i (objAt comps i) systems comps)

/-- `ECS.runSystems`: entity indices 0 .. uid.length - 1 in order, systems in
registration order within each entity, updates merged into the live columns. -/
def runSystems {α : Type} (systems : List (System α)) (s : Store α) : Store α :=
  ⟨runEntities systems (List.range (entityCount s)) s.comps, s.defaults⟩

/-- The entity loop of the batch semantics used for comparison: identical to
runEntities except that every entity pass reads its snapshot from the fixed
pre-tick columns s0. -/
def runEntitiesPre {α : Type} (systems : List (System α))
    (s0 : List (String × Column α)) :
    List Nat → List (String × Column α) → List (String × Column α)
  | [], comps => comps
  | i :: rest, comps => runEntitiesPre systems s0 rest (runEntity i (objAt s0 i) systems comps)

/-- Batch semantics used for comparison: identical to runSystems except that
every entity pass reads its snapshot from the pre-tick columns. -/
def runSystemsPreSnapshot {α : Type} (systems : List (System α)) (s : Store α) : Store α :=
  ⟨runEntitiesPre systems s.comps (List.range (entityCount s)) s.comps, s.defaults⟩

/-- The store well-formedness invariant: the uid column is registered and every
registered column has length equal to the entity count. -/
def wellFormed {α : Type} (s : Store α) : Prop :=
  containsKey s.comps "uid" = true ∧ ∀ p ∈ s.comps, p.2.length = entityCount s

/-! ### Concrete example stores and systems used by counterexamples and witnesses -/

/-- A store with one entity and columns uid, X, Y (X holds 0, Y holds 42). -/
def cexStore : Store Int :=
  ⟨[("uid", [some 0]), ("X", [some 0]), ("Y", [some 42])],
   [("uid", none), ("X", none), ("Y", none)]⟩

/-- A system that writes X := 1 on every entity. -/
def cexSysWrite : System Int := fun _ => some [("X", some 1)]

/-- A system that copies the X value it observes into Y. -/
def cexSysRead : System Int := fun obj => some [("Y", obj "X")]

/-- A system that writes X := 5 on every entity (used on a one-entity store). -/
def c6sys : System Int := fun _ => some [("X", some 5)]

/-- The store obtained from the initial store by registering component X. -/
def witStoreX : Store Int := ⟨[("uid", []), ("X", [])], [("uid", none), ("X", none)]⟩

/-! ## Scene.addMesh geometry preparation (src/core/renderer/scene.ts lines 142-194)

The buffers are computed with gl-matrix vec3 operations over floats; the
embedding uses rationals and an abstract reciprocal square root `rsqrt`,
matching the algebraic structure of vec3.normalize (scale by 1/sqrt(len) when
the squared length is positive, by the zero length itself otherwise). -/

structure V3 where
  x : ℚ
  y : ℚ
  z : ℚ
  deriving DecidableEq

/-- vec3.subtract. -/
def vsub (a b : V3) : V3 := ⟨a.x - b.x, a.y - b.y, a.z - b.z⟩

/-- vec3.cross: the first argument crossed with the second. -/
def vcross (a b : V3) : V3 :=
  ⟨a.y * b.z - a.z * b.y, a.z * b.x - a.x * b.z, a.x * b.y - a.y * b.x⟩

/-- vec3.normalize with an abstract reciprocal square root. -/
def vnormalize (rsqrt : ℚ → ℚ) (v : V3) : V3 :=
  let len := v.x * v.x + v.y * v.y + v.z * v.z
  let scale := if 0 < len then rsqrt len else len
  ⟨v.x * scale, v.y * scale, v.z * scale⟩

/-- Read of three consecutive position floats starting at a base index
(`positions[base]`, `positions[base+1]`, `positions[base+2]`; loop indices
stay in range after the whole-triangle truncation). -/
def triVert (ps : List ℚ) (base : Nat) : V3 :=
  ⟨ps.getD base 0, ps.getD (base + 1) 0, ps.getD (base + 2) 0⟩

/-- The flat normal of triangle i as addMesh computes it: with vertices a, b, c
and edges e1 = b - a, e2 = c - a, the normal is normalize(cross(e2, e1)). -/
def triangleNormal (rsqrt : ℚ → ℚ) (ps : List ℚ) (i : Nat) : V3 :=
  let a := triVert ps (i * 9)
  let b := triVert ps (i * 9 + 3)
  let c := triVert ps (i * 9 + 6)
  vnormalize rsqrt (vcross (vsub c a) (vsub b a))

/-- Scene.addMesh buffer preparation: the pair (attr_pos, attr_normals) handed
to ecs.addEntity.  The in-place truncation `positions.length = numTris * 9` is
modelled by taking that prefix; when normals are omitted, one flat normal per
triangle is pushed three times. -/
def addMeshBuffers (rsqrt : ℚ → ℚ) (positions : List ℚ) (suppliedNormals : Option (List ℚ)) :
    List ℚ × List ℚ :=
  let numVerts := positions.length / 3
  let numTris := numVerts / 3
  let ps := positions.take (numTris * 9)
  let normals :=
    match suppliedNormals with
    | some ns => ns
    | none =>
      (List.range numTris).foldl
        (fun acc i =>
          let n := triangleNormal rsqrt ps i
          acc ++ [n.x, n.y, n.z] ++ [n.x, n.y, n.z] ++ [n.x, n.y, n.z])
        []
  (ps, normals)

/-! ## GPU attribute processing (src/core/gl/index.ts lines 88-160)

processAttribute is embedded as a function from its inputs to the ordered
trace of WebGL calls it issues.  The attribute-location lookup result and the
buffer-creation result are passed in as parameters; createInstanceData lives
in the external ./vertices module and is likewise a parameter. -/

def GL_ARRAY_BUFFER : Nat := 34962

def GL_FLOAT : Nat := 5126

inductive GLCmd (δ : Type) where
  | bindBuffer (target : Nat) (buffer : Nat)
  | bufferData (target : Nat) (data : δ)
  | enableAttrib (location : Int)
  | attribPointer (location : Int) (size : Nat) (compType : Nat) (normalized : Bool)
      (strideBytes : Nat) (offsetBytes : Nat)
  | attribDivisor (location : Int) (divisor : Nat)
  deriving DecidableEq

structure AttributeRec (δ : Type) where
  name : String
  data : δ
  numInstances : Nat
  stride : Nat

/-- The matrix branch loop (index.ts lines 127-150): for each row, enable the
location, bail out if it equals -1, then set a 4-float pointer with stride
argument `stride * 4` bytes and offset argument `i * stride` bytes, and mark
the row per-instance whenever numInstances > 0. -/
def matrixLoop {δ : Type} (b : Int) (stride ninst : Nat) : List Nat → List (GLCmd δ)
  | [] => []
  | i :: rest =>
    let location := b + (i : Int)
    GLCmd.enableAttrib location ::
      (if location = -1 then []
       else
        GLCmd.attribPointer location 4 GL_FLOAT false (stride * 4) (i * stride) ::
          ((if 0 < ninst then [GLCmd.attribDivisor location 1] else []) ++
            matrixLoop b stride ninst rest))

/-- processAttribute (index.ts lines 88-160) as a GL call trace. -/
def processAttribute {δ : Type} (attr : AttributeRec δ) (baseLocation : Int)
    (buffer : Option Nat) (instanceData : Nat → δ) : List (GLCmd δ) :=
  let rawData := if 1 < attr.numInstances then instanceData attr.numInstances else attr.data
  let stride := attr.stride
  if baseLocation = -1 then []
  else
    match buffer with
    | none => []
    | some buf =>
      GLCmd.bindBuffer GL_ARRAY_BUFFER buf ::
        GLCmd.bufferData GL_ARRAY_BUFFER rawData ::
          (if 16 ≤ attr.stride then matrixLoop baseLocation stride attr.numInstances [0, 1, 2, 3]
           else
            GLCmd.enableAttrib baseLocation ::
              GLCmd.attribPointer baseLocation stride GL_FLOAT false (stride * 4) 0 ::
                (if 1 < attr.numInstances then [GLCmd.attribDivisor baseLocation 1] else []))

/-- The row layout asserted by the specification: each of the four rows bound
as a 4-float pointer at byte offset row * stride * 4. -/
abbrev specRowOffsets {δ : Type} [DecidableEq δ] (cmds : List (GLCmd δ)) (b : Int) (stride : Nat) :
    Prop :=
  ∀ r : Nat, r < 4 →
    GLCmd.attribPointer (b + (r : Int)) 4 GL_FLOAT false (stride * 4) (r * stride * 4) ∈ cmds

/-- One row block of the trace the code actually emits for a stride-16 matrix
attribute: enable, a 4-float pointer with 64-byte stride and byte offset
row * 16, and a divisor-1 mark whenever numInstances > 0. -/
def emittedMatrixRow {δ : Type} (b : Int) (ninst : Nat) (r : Nat) : List (GLCmd δ) :=
  GLCmd.enableAttrib (b + (r : Int)) ::
    GLCmd.attribPointer (b + (r : Int)) 4 GL_FLOAT false 64 (r * 16) ::
      (if 0 < ninst then [GLCmd.attribDivisor (b + (r : Int)) 1] else [])

/-! ## Mesh import index path (src/core/gl/index.ts lines 301-337)

The index accessor resolution and typed-view construction, with the binary
chunk as a byte list.  The source always constructs a Uint16Array view of
accessor.count elements; the accessor's componentType field is never read. -/

structure Accessor where
  bufferView : Option Nat
  count : Nat
  componentType : Nat
  deriving DecidableEq

structure BufferView where
  byteOffset : Option Nat
  deriving DecidableEq

/-- glTF componentType tag for 32-bit unsigned indices. -/
def GL_UNSIGNED_INT : Nat := 5125

def readByte (bytes : List Nat) (i : Nat) : Nat := (bytes.get? i).getD 0

/-- One element of a Uint16Array view (little-endian). -/
def readU16 (bytes : List Nat) (off : Nat) : Nat :=
  readByte bytes off + 256 * readByte bytes (off + 1)

/-- The decoded contents of `new Uint16Array(dataBuffer, offset, count)`. -/
def u16view (bytes : List Nat) (off count : Nat) : List Nat :=
  (List.range count).map (fun k => readU16 bytes (off + 2 * k))

/-- Modelled from the spec: the 32-bit-wide index view a component-type-aware
decode path would construct for an UNSIGNED_INT accessor (no such path exists
in the source, which fixes the 16-bit width). -/
def u32view (bytes : List Nat) (off count : Nat) : List Nat :=
  (List.range count).map (fun k =>
    readByte bytes (off + 4 * k) + 256 * readByte bytes (off + 4 * k + 1) +
      65536 * readByte bytes (off + 4 * k + 2) + 16777216 * readByte bytes (off + 4 * k + 3))

/-- The index-decode path of loadModel: resolve the index accessor, its buffer
view and byte offset, then construct the 16-bit view of accessor.count
elements and report the count.  Missing pieces abort with no result. -/
def loadIndexData (accessors : List Accessor) (bufferViews : List BufferView)
    (indices : Option Nat) (bytes : List Nat) : Option (List Nat × Nat) :=
  match indices with
  | none => none
  | some idx =>
    match accessors.get? idx with
    | none => none
    | some accessor =>
      match accessor.bufferView with
      | none => none
      | some bufferIndex =>
        match bufferViews.get? bufferIndex with
        | none => none
        | some bv =>
          match bv.byteOffset with
          | none => none
          | some offset => some (u16view bytes offset accessor.count, accessor.count)

/-- An accessor with its componentType replaced. -/
def withComponentType (a : Accessor) (ct : Nat) : Accessor :=
  ⟨a.bufferView, a.count, ct⟩

/-- A 32-bit index accessor: one UNSIGNED_INT element at buffer view 0. -/
def acc32 : Accessor := ⟨some 0, 1, GL_UNSIGNED_INT⟩

/-- A buffer view at byte offset 0. -/
def bv0 : BufferView := ⟨some 0⟩

/-- Four bytes encoding the single 32-bit little-endian index 65536. -/
def bytes32 : List Nat := [0, 0, 1, 0]

/-! ## Cross-context messaging (src/unnamed connection sources and
src/core/connection/workerThread.ts)

Message elements are numbers, strings (key names) or transferred canvas
handles. -/

inductive MVal where
  | num (n : Int)
  | str (s : String)
  | canvas (id : Nat)
  deriving DecidableEq

namespace MessageType

def domEvent : Int := 0

def custom : Int := 1

def attachCanvas : Int := 2

end MessageType

namespace EventTypes

def pointermove : Int := 0

def pointerdown : Int := 1

def pointerup : Int := 2

def keydown : Int := 3

def keyup : Int := 4

def onWheel : Int := 5

end EventTypes

/-- The pointermove event passer of connectWorker: posts
`[MessageType.domEvent, EventTypes.pointermove, e.clientX, e.clientY]`. -/
def encodePointerMove (x y : Int) : List MVal :=
  [MVal.num MessageType.domEvent, MVal.num EventTypes.pointermove, MVal.num x, MVal.num y]

inductive RecvResult where
  | attachCanvasHandled (arg : Option MVal)
  | loggedOnly
  | ignoredNonMessage
  deriving DecidableEq

/-- handleConnection (workerThread.ts lines 3-23): non-array and empty data
return early; the switch on data[0] handles only MessageType.attachCanvas;
every other message falls through to console.log with no decoding. -/
def handleConnection (data : List MVal) : RecvResult :=
  if data.length = 0 then RecvResult.ignoredNonMessage
  else
    match data.get? 0 with
    | some (MVal.num k) =>
      if k = MessageType.attachCanvas then RecvResult.attachCanvasHandled (data.get? 1)
      else RecvResult.loggedOnly
    | _ => RecvResult.loggedOnly

inductive DomEvent where
  | pointermove (x y : Int)
  | pointerdown (x y : Int)
  | pointerup (x y : Int)
  | keydown (k : String)
  | keyup (k : String)
  | onWheel
  deriving DecidableEq

/-- Modelled from the spec: the receiving-side decode of domEvent messages
described in the protocol section (payload [x, y] for pointer events, [key]
for keyboard events, empty for wheel); the source receiver has no domEvent
case, so this decoder exists only in the specification. -/
def decodeDomEventSpec (data : List MVal) : Option DomEvent :=
  match data with
  | [MVal.num mk, MVal.num ek, MVal.num x, MVal.num y] =>
    if mk = MessageType.domEvent then
      if ek = EventTypes.pointermove then some (DomEvent.pointermove x y)
      else if ek = EventTypes.pointerdown then some (DomEvent.pointerdown x y)
      else if ek = EventTypes.pointerup then some (DomEvent.pointerup x y)
      else none
    else none
  | [MVal.num mk, MVal.num ek, MVal.str key] =>
    if mk = MessageType.domEvent then
      if ek = EventTypes.keydown then some (DomEvent.keydown key)
      else if ek = EventTypes.keyup then some (DomEvent.keyup key)
      else none
    else none
  | [MVal.num mk, MVal.num ek] =>
    if mk = MessageType.domEvent ∧ ek = EventTypes.onWheel then some DomEvent.onWheel else none
  | _ => none

/-! ## Render-worker bootstrap (src/level-editor/src/worker/mainWorker.js)

The worker holds an isReady flag, initially false; the onmessage handler
returns immediately once the flag is set, otherwise sets it and runs the
WASM bootstrap with data[0] (compiled module), data[2] (shared memory) and
data[3] (entry point); data[1] is the worker id, unused by this handler. -/

inductive WorkerAction where
  | bootstrap (moduleHandle memoryHandle entryPoint : Nat)
  deriving DecidableEq

/-- The bootstrap action built from one message's data array. -/
def bootOf (data : List Nat) : WorkerAction :=
  WorkerAction.bootstrap ((data.get? 0).getD 0) ((data.get? 2).getD 0) ((data.get? 3).getD 0)

/-- The onmessage handler: new flag state and the action performed, if any. -/
def workerOnMessage (isReady : Bool) (data : List Nat) : Bool × Option WorkerAction :=
  if isReady then (isReady, none)
  else (true, some (bootOf data))

/-- Delivery of a message sequence to one worker instance, collecting the
actions performed in order. -/
def runWorkerMessages (isReady : Bool) (msgs : List (List Nat)) : Bool × List WorkerAction :=
  msgs.foldl
    (fun st m =>
      let r := workerOnMessage st.1 m
      (r.1, st.2 ++ r.2.toList))
    (isReady, [])

/-! ## Association-list lemmas for the component map -/

/-- Lookup through a map that rewrites every column in place. -/
theorem lookupCol_map {α : Type} (g : String → Column α → Column α)
    (l : List (String × Column α)) (k : String) :
    lookupCol (l.map (fun p => (p.1, g p.1 p.2))) k = (lookupCol l k).map (g k) := by
  induction l with
  | nil => rfl
  | cons p t ih =>
    simp only [List.map_cons, lookupCol, List.find?_cons]
    cases hpk : (p.1 == k) with
    | true =>
      have he : p.1 = k := eq_of_beq hpk
      subst he
      rfl
    | false => exact ih

/-- Key membership is unchanged by a column-rewriting map. -/
theorem containsKey_map {α : Type} (g : String → Column α → Column α)
    (l : List (String × Column α)) (k : String) :
    containsKey (l.map (fun p => (p.1, g p.1 p.2))) k = containsKey l k := by
  simp only [containsKey, List.any_map]
  rfl

/-- Key membership agrees with lookup success. -/
theorem containsKey_eq_isSome {α : Type} (l : List (String × Column α)) (k : String) :
    containsKey l k = (lookupCol l k).isSome := by
  induction l with
  | nil => rfl
  | cons p t ih =>
    simp only [containsKey, List.any_cons, lookupCol, List.find?_cons]
    cases hpk : (p.1 == k) with
    | true => rfl
    | false =>
      simp only [Bool.false_or]
      exact ih

/-- Key membership distributes over append. -/
theorem containsKey_append {α : Type} (l1 l2 : List (String × Column α)) (k : String) :
    containsKey (l1 ++ l2) k = (containsKey l1 k || containsKey l2 k) := by
  simp [containsKey, List.any_append]

/-- Lookup in an appended component map prefers the left bindings. -/
theorem lookupCol_append {α : Type} (l1 l2 : List (String × Column α)) (k : String) :
    lookupCol (l1 ++ l2) k =
      if containsKey l1 k then lookupCol l1 k else lookupCol l2 k := by
  rw [containsKey_eq_isSome]
  simp only [lookupCol, List.find?_append]
  cases hfind : List.find? (fun p => p.1 == k) l1 with
  | none => simp [hfind]
  | some q => simp [hfind]

/-- Lookup after a slot write rewrites only the matching column. -/
theorem lookupCol_setSlot {α : Type} (cs : List (String × Column α)) (k : String) (i : Nat)
    (v : Option α) (k1 : String) :
    lookupCol (setSlot cs k i v) k1 =
      (lookupCol cs k1).map (fun col => if k1 == k then col.set i v else col) :=
  lookupCol_map (fun k2 col => if k2 == k then col.set i v else col) cs k1

/-- A slot write leaves every other slot unchanged. -/
theorem getSlot_setSlot_ne {α : Type} (cs : List (String × Column α)) (k k1 : String)
    (i j : Nat) (v : Option α) (h : k1 ≠ k ∨ j ≠ i) :
    getSlot (setSlot cs k i v) k1 j = getSlot cs k1 j := by
  simp only [getSlot, lookupCol_setSlot]
  cases hc : lookupCol cs k1 with
  | none => rfl
  | some col =>
    simp only [Option.map_some']
    rcases h with h | h
    · rw [if_neg (by simpa using h)]
    · by_cases hk : (k1 == k) = true
      · rw [if_pos hk, List.get?_set_ne _ _ (Ne.symm h)]
      · rw [if_neg hk]

/-- Applying a system result for entity i leaves every other entity row intact. -/
theorem getSlot_applyRes_ne {α : Type} (i j : Nat) (k : String) (hj : j ≠ i) :
    ∀ (res : List (String × Option α)) (cs : List (String × Column α)),
      getSlot (applyRes i res cs) k j = getSlot cs k j := by
  intro res
  induction res with
  | nil => intro cs; rfl
  | cons kv rest ih =>
    intro cs
    simp only [applyRes]
    rw [ih]
    by_cases hc : containsKey cs kv.1 = true
    · rw [if_pos hc, getSlot_setSlot_ne _ _ _ _ _ _ (Or.inr hj)]
    · rw [if_neg hc]

/-- Applying a system result leaves components it does not mention intact. -/
theorem getSlot_applyRes_not_mem {α : Type} (i j : Nat) (k : String) :
    ∀ (res : List (String × Option α)) (cs : List (String × Column α)),
      (∀ q ∈ res, q.1 ≠ k) →
      getSlot (applyRes i res cs) k j = getSlot cs k j := by
  intro res
  induction res with
  | nil => intro cs _; rfl
  | cons kv rest ih =>
    intro cs hres
    simp only [applyRes]
    rw [ih _ (fun q hq => hres q (List.mem_cons_of_mem _ hq))]
    have hk : k ≠ kv.1 := Ne.symm (hres kv (List.mem_cons_self _ _))
    by_cases hc : containsKey cs kv.1 = true
    · rw [if_pos hc, getSlot_setSlot_ne _ _ _ _ _ _ (Or.inl hk)]
    · rw [if_neg hc]

/-- One entity pass touches only that entity row. -/
theorem getSlot_runEntity_ne {α : Type} (i j : Nat) (k : String) (obj : Obj α) (hj : j ≠ i) :
    ∀ (systems : List (System α)) (cs : List (String × Column α)),
      getSlot (runEntity i obj systems cs) k j = getSlot cs k j := by
  intro systems
  induction systems with
  | nil => intro cs; rfl
  | cons sys rest ih =>
    intro cs
    simp only [runEntity]
    rw [ih]
    cases hres : sys obj with
    | none => rfl
    | some res => exact getSlot_applyRes_ne _ _ _ hj _ _

/-- An entity pass whose systems all return null is the identity. -/
theorem runEntity_nones {α : Type} (i : Nat) (obj : Obj α) :
    ∀ (systems : List (System α)) (cs : List (String × Column α)),
      (∀ sys ∈ systems, sys obj = none) →
      runEntity i obj systems cs = cs := by
  intro systems
  induction systems with
  | nil => intro cs _; rfl
  | cons sys rest ih =>
    intro cs hnone
    simp only [runEntity, hnone sys (List.mem_cons_self _ _)]
    exact ih cs (fun s2 hs => hnone s2 (List.mem_cons_of_mem _ hs))

/-- A whole tick with all-null systems is the identity on the columns. -/
theorem runEntities_nones {α : Type} (systems : List (System α))
    (h : ∀ sys ∈ systems, ∀ obj, sys obj = none) :
    ∀ (l : List Nat) (cs : List (String × Column α)),
      runEntities systems l cs = cs := by
  intro l
  induction l with
  | nil => intro cs; rfl
  | cons i t ih =>
    intro cs
    simp only [runEntities]
    rw [runEntity_nones i (objAt cs i) systems cs (fun sys hs => h sys hs _)]
    exact ih cs

/-- The live entity loop agrees with the pre-snapshot loop on distinct entity
indices whose rows still agree with the reference columns: each pass rewrites
only its own entity row, so the snapshot a later pass builds from the live
columns coincides with the snapshot built from the reference columns. -/
theorem runEntities_eq_pre {α : Type} (systems : List (System α))
    (s0 : List (String × Column α)) :
    ∀ (l : List Nat), l.Nodup →
      ∀ cs, (∀ j ∈ l, ∀ k, getSlot cs k j = getSlot s0 k j) →
      runEntities systems l cs = runEntitiesPre systems s0 l cs := by
  intro l
  induction l with
  | nil => intro _ cs _; rfl
  | cons i t ih =>
    intro hnd cs hagree
    have hobj : objAt cs i = objAt s0 i :=
      funext fun k => hagree i (List.mem_cons_self _ _) k
    simp only [runEntities, runEntitiesPre, hobj]
    apply ih (List.nodup_cons.mp hnd).2
    intro j hj k
    have hji : j ≠ i := fun he => (List.nodup_cons.mp hnd).1 (he ▸ hj)
    rw [getSlot_runEntity_ne _ _ _ _ hji]
    exact hagree j (List.mem_cons_of_mem _ hj) k

/-- runSystems coincides with the batch semantics in which every system call
observes the pre-tick snapshot of its entity. -/
theorem runSystems_eq_pre_aux {α : Type} (systems : List (System α)) (s : Store α) :
    runSystems systems s = runSystemsPreSnapshot systems s := by
  simp only [runSystems, runSystemsPreSnapshot]
  congr 1
  exact runEntities_eq_pre systems s.comps (List.range (entityCount s))
    (List.nodup_range _) s.comps (fun _ _ _ => rfl)

/-- In the batch semantics, a single system that updates only component x on
entity i leaves every other slot unchanged. -/
theorem getSlot_runEntitiesPre_single {α : Type} (s0 : List (String × Column α))
    (sys : System α) (i : Nat) (x : String) (v : Option α) (k : String) (j : Nat)
    (hkj : ¬(k = x ∧ j = i)) (hsome : sys (objAt s0 i) = some [(x, v)]) :
    ∀ (l : List Nat) (cs : List (String × Column α)),
      (∀ m ∈ l, m ≠ i → sys (objAt s0 m) = none) →
      getSlot (runEntitiesPre [sys] s0 l cs) k j = getSlot cs k j := by
  intro l
  induction l with
  | nil => intro cs _; rfl
  | cons m t ih =>
    intro cs hnone
    simp only [runEntitiesPre]
    rw [ih _ (fun m2 hm2 => hnone m2 (List.mem_cons_of_mem _ hm2))]
    by_cases hmi : m = i
    · subst hmi
      simp only [runEntity, hsome, applyRes]
      by_cases hc : containsKey cs x = true
      · rw [if_pos hc]
        exact getSlot_setSlot_ne _ _ _ _ _ _ (not_and_or.mp hkj)
      · rw [if_neg hc]
    · simp only [runEntity, hnone m (List.mem_cons_self _ _) hmi]

/-! ## Store-shape lemmas for addEntity and addComponent -/

/-- Every column gains exactly one slot in an addEntity push. -/
theorem pushValue_length {α : Type} (natVal : Nat → α) (init : String → Option α)
    (d : List (String × Option α)) (k : String) (col : Column α) :
    (pushValue natVal init d k col).length = col.length + 1 := by
  unfold pushValue
  split <;> simp

/-- addEntity grows the entity count by exactly one. -/
theorem entityCount_addEntity {α : Type} (natVal : Nat → α) (s : Store α)
    (init : String → Option α) (huid : containsKey s.comps "uid" = true) :
    entityCount (addEntity natVal s init).1 = entityCount s + 1 := by
  have hiso : (lookupCol s.comps "uid").isSome = true := by
    rw [← containsKey_eq_isSome]; exact huid
  obtain ⟨col, hcol⟩ := Option.isSome_iff_exists.mp hiso
  simp only [entityCount, addEntity, lookupCol_map, hcol, Option.map_some', Option.getD_some]
  exact pushValue_length natVal init s.defaults "uid" col

/-- addEntity preserves the length invariant. -/
theorem wellFormed_addEntity {α : Type} (natVal : Nat → α) (s : Store α)
    (init : String → Option α) (hwf : wellFormed s) :
    wellFormed (addEntity natVal s init).1 := by
  obtain ⟨huid, hlen⟩ := hwf
  constructor
  · simp only [addEntity, containsKey_map]
    exact huid
  · intro p hp
    rw [entityCount_addEntity natVal s init huid]
    simp only [addEntity, List.mem_map] at hp
    obtain ⟨q, hq, rfl⟩ := hp
    simp [pushValue_length, hlen q hq]

/-- The slot appended by addEntity to a non-uid column is the caller-supplied
value when present, else the recorded default. -/
theorem lookupCol_addEntity_ne_uid {α : Type} (natVal : Nat → α) (s : Store α)
    (init : String → Option α) (k : String) (hk : k ≠ "uid") :
    lookupCol ((addEntity natVal s init).1).comps k
      = (lookupCol s.comps k).map
          (fun col => col ++ [(init k).orElse (fun _ => lookupDefault s.defaults k)]) := by
  simp only [addEntity, lookupCol_map]
  cases lookupCol s.comps k with
  | none => rfl
  | some col => simp [pushValue, hk]

/-- Inversion of a successful addComponent call: the name was fresh and the
result appends exactly the backfilled column. -/
theorem addComponent_ok_inv {α : Type} (s : Store α) (name : String) (fill dflt : Option α)
    (t : Store α) (h : addComponent s name fill dflt = Except.ok t) :
    containsKey s.comps name = false ∧
    t = ⟨s.comps ++ [(name, List.replicate (entityCount s) fill)],
         setDefault s.defaults name dflt⟩ := by
  by_cases hc : containsKey s.comps name = true
  · simp [addComponent, hc] at h
  · have hf : containsKey s.comps name = false := by
      cases hcv : containsKey s.comps name
      · rfl
      · exact absurd hcv hc
    refine ⟨hf, ?_⟩
    simp [addComponent, hf] at h
    exact h.symm

/-- A successful addComponent preserves the invariant, keeps the entity count,
installs the backfilled column under the new name and leaves every other
column untouched. -/
theorem wellFormed_addComponent {α : Type} (s : Store α) (name : String)
    (fill dflt : Option α) (t : Store α) (h : addComponent s name fill dflt = Except.ok t)
    (hwf : wellFormed s) :
    wellFormed t ∧ entityCount t = entityCount s
    ∧ lookupCol t.comps name = some (List.replicate (entityCount s) fill)
    ∧ ∀ (k : String), k ≠ name → lookupCol t.comps k = lookupCol s.comps k := by
  obtain ⟨hfresh, rfl⟩ := addComponent_ok_inv s name fill dflt t h
  obtain ⟨huid, hlen⟩ := hwf
  have hcount : entityCount
      (⟨s.comps ++ [(name, List.replicate (entityCount s) fill)],
        setDefault s.defaults name dflt⟩ : Store α) = entityCount s := by
    simp only [entityCount, lookupCol_append, huid, if_true]
  refine ⟨⟨?_, ?_⟩, hcount, ?_, ?_⟩
  · simp [containsKey_append, huid]
  · intro p hp
    rw [hcount]
    rcases List.mem_append.mp hp with hmem | hmem
    · exact hlen p hmem
    · simp only [List.mem_singleton] at hmem
      subst hmem
      simp
  · simp only [lookupCol_append, hfresh, Bool.false_eq_true, if_false]
    simp [lookupCol, List.find?_cons]
  · intro k hk
    simp only [lookupCol_append]
    cases hck : containsKey s.comps k with
    | true => simp
    | false =>
      have h1 : lookupCol s.comps k = none := by
        have := containsKey_eq_isSome s.comps k
        rw [hck] at this
        exact Option.not_isSome_iff_eq_none.mp (by simp [← this])
      simp only [Bool.false_eq_true, if_false, h1]
      have hbe : (name == k) = false := by
        cases hbv : (name == k)
        · rfl
        · exact absurd (eq_of_beq hbv) (Ne.symm hk)
      simp [lookupCol, List.find?_cons, hbe]

/-! ## Claim theorems -/

/-- C1 counterexample: the claim as stated is false on the code.  In a
one-entity store where the first system writes X := 1 and the second system
copies the X it observes into Y, the second system observes the pre-update
value: the tick ends with X = 1 but Y = 0, not the Y = 1 the claim's
read-your-predecessor ordering would produce, because the per-entity snapshot
obj is built once before the system loop and never rebuilt. -/
theorem runSystems_stale_snapshot_cex :
    getSlot (runSystems [cexSysWrite, cexSysRead] cexStore).comps "X" 0 = some 1
    ∧ getSlot (runSystems [cexSysWrite, cexSysRead] cexStore).comps "Y" 0 = some 0
    ∧ getSlot (runSystems [cexSysWrite, cexSysRead] cexStore).comps "Y" 0 ≠ some 1 :=
  ⟨by decide, by decide, by decide⟩

/-- C1 (amended): runSystems iterates entity slots in id order and runs the
registered systems in registration order within each slot, applying each
returned partial update to the live arrays immediately; but every system in an
entity pass receives the snapshot built at the start of that pass, and since
each pass writes only its own entity row, all snapshots coincide with the
pre-tick store: no system observes any same-tick update, neither from earlier
systems on its own entity nor from other entities. -/
theorem runSystems_pre_tick_snapshot {α : Type} (systems : List (System α)) (s : Store α) :
    runSystems systems s = runSystemsPreSnapshot systems s :=
  runSystems_eq_pre_aux systems s

/-- C6: a system that returns a partial update for component x on entity i
(and null elsewhere) changes only slot x at row i, and systems that return
null for every input leave the store entirely unchanged. -/
theorem runSystems_update_isolation {α : Type} :
    (∀ (s : Store α) (sys : System α) (x : String) (i : Nat) (v : Option α),
        (∀ m, m < entityCount s → m ≠ i → sys (objAt s.comps m) = none) →
        sys (objAt s.comps i) = some [(x, v)] →
        ∀ (k : String) (j : Nat), ¬(k = x ∧ j = i) →
          getSlot (runSystems [sys] s).comps k j = getSlot s.comps k j)
    ∧
    (∀ (s : Store α) (systems : List (System α)),
        (∀ sys ∈ systems, ∀ obj, sys obj = none) →
        runSystems systems s = s) := by
  constructor
  · intro s sys x i v hnone hsome k j hkj
    rw [runSystems_eq_pre_aux]
    exact getSlot_runEntitiesPre_single s.comps sys i x v k j hkj hsome _ _
      (fun m hm hmi => hnone m (List.mem_range.mp hm) hmi)
  · intro s systems hnone
    simp only [runSystems]
    rw [runEntities_nones systems hnone]

/-- C6 witness: on the concrete one-entity store, a system writing only X
leaves Y untouched, and running no systems leaves the store unchanged. -/
theorem runSystems_update_isolation_witness :
    getSlot (runSystems [c6sys] cexStore).comps "Y" 0 = getSlot cexStore.comps "Y" 0 ∧
    runSystems ([] : List (System Int)) cexStore = cexStore := by
  constructor
  · exact runSystems_update_isolation.1 cexStore c6sys "X" 0 (some 5)
      (fun m hm hmi => absurd (Nat.lt_one_iff.mp hm) hmi)
      rfl "Y" 0 (by simp)
  · exact runSystems_update_isolation.2 cexStore []
      (fun sys hs => absurd hs (List.not_mem_nil sys))

/-- C7: addComponent with an already-registered name throws the source's
"Component already exists" error; no updated store is produced, so every
existing column, default and the entity count are left as they were. -/
theorem addComponent_duplicate_error {α : Type} (s : Store α) (name : String)
    (fill dflt : Option α) (h : containsKey s.comps name = true) :
    addComponent s name fill dflt = Except.error "Component already exists" := by
  simp [addComponent, h]

/-- C7 witness: re-registering the built-in uid component fails. -/
theorem addComponent_duplicate_error_witness :
    containsKey (initialStore Int).comps "uid" = true ∧
    addComponent (initialStore Int) "uid" none none
      = Except.error "Component already exists" :=
  ⟨rfl, addComponent_duplicate_error (initialStore Int) "uid" none none rfl⟩

/-- C2: the constructor store satisfies the length invariant; addEntity
preserves it, grows the entity count by one and appends to every registered
non-uid column the caller-supplied value if present, else the recorded
default; a successful addComponent preserves it, keeps the entity count,
installs a fill-value column of length equal to the entity count and leaves
every other column unchanged. -/
theorem ecs_array_length_invariant {α : Type} (natVal : Nat → α) :
    wellFormed (initialStore α)
    ∧ (∀ (s : Store α) (init : String → Option α), wellFormed s →
        wellFormed (addEntity natVal s init).1
        ∧ entityCount (addEntity natVal s init).1 = entityCount s + 1
        ∧ ∀ (k : String), k ≠ "uid" →
            lookupCol ((addEntity natVal s init).1).comps k
              = (lookupCol s.comps k).map
                  (fun col => col ++ [(init k).orElse (fun _ => lookupDefault s.defaults k)]))
    ∧ (∀ (s : Store α) (name : String) (fill dflt : Option α) (t : Store α),
        addComponent s name fill dflt = Except.ok t → wellFormed s →
        wellFormed t
        ∧ entityCount t = entityCount s
        ∧ lookupCol t.comps name = some (List.replicate (entityCount s) fill)
        ∧ ∀ (k : String), k ≠ name → lookupCol t.comps k = lookupCol s.comps k) := by
  refine ⟨?_, ?_, ?_⟩
  · refine ⟨rfl, ?_⟩
    intro p hp
    simp only [initialStore, List.mem_singleton] at hp
    subst hp
    rfl
  · intro s init hwf
    exact ⟨wellFormed_addEntity natVal s init hwf,
      entityCount_addEntity natVal s init hwf.1,
      fun k hk => lookupCol_addEntity_ne_uid natVal s init k hk⟩
  · intro s name fill dflt t h hwf
    exact wellFormed_addComponent s name fill dflt t h hwf

/-- C2 witness: the invariant holds of the initial store, one addEntity call
on it raises the count to one, and addComponent backfills X with an
entity-count-length column. -/
theorem ecs_array_length_invariant_witness :
    wellFormed (initialStore Int)
    ∧ entityCount (addEntity (fun n => (n : Int)) (initialStore Int) (fun _ => none)).1
        = entityCount (initialStore Int) + 1
    ∧ lookupCol witStoreX.comps "X"
        = some (List.replicate (entityCount (initialStore Int)) none) := by
  have hwf : wellFormed (initialStore Int) := (ecs_array_length_invariant (fun n => (n : Int))).1
  refine ⟨hwf, ?_, ?_⟩
  · exact ((ecs_array_length_invariant (fun n => (n : Int))).2.1 (initialStore Int)
      (fun _ => none) hwf).2.1
  · exact (((ecs_array_length_invariant (fun n => (n : Int))).2.2 (initialStore Int)
      "X" none none witStoreX rfl hwf)).2.2.1

/-- C4 counterexample: the claim's byte offset row * stride * 4 is wrong for
the code.  For the stride-16 matrix attribute at base location 0 with two
instances, the emitted trace has no pointer call at offset 64 for row 1 (the
code emits i * stride = 16 bytes per row, not i * stride * 4 = 64). -/
theorem processAttribute_matrix_offset_cex :
    ¬ specRowOffsets (processAttribute ⟨"model", (0:Nat), 2, 16⟩ 0 (some 1) (fun n => n)) 0 16 := by
  decide

/-- C4 (amended): a stride-16 attribute whose base location resolves binds
exactly four consecutive locations from the single buffer bound and uploaded
at the start of the trace, each as a 4-float pointer with 64-byte stride and
byte offset row * stride = row * 16 (not row * stride * 4), and each row is
marked per-instance with divisor 1 whenever numInstances > 0 — in particular
whenever numInstances > 1. -/
theorem processAttribute_matrix_binding {δ : Type} (nm : String) (d : δ) (ninst : Nat)
    (b : Int) (buf : Nat) (idata : Nat → δ) (hb : 0 ≤ b) :
    processAttribute ⟨nm, d, ninst, 16⟩ b (some buf) idata =
      GLCmd.bindBuffer GL_ARRAY_BUFFER buf ::
        GLCmd.bufferData GL_ARRAY_BUFFER (if 1 < ninst then idata ninst else d) ::
          (emittedMatrixRow b ninst 0 ++ emittedMatrixRow b ninst 1 ++
            emittedMatrixRow b ninst 2 ++ emittedMatrixRow b ninst 3) := by
  have h0 : ¬(b + ((0:Nat):Int) = -1) := by push_cast; omega
  have h1 : ¬(b + ((1:Nat):Int) = -1) := by push_cast; omega
  have h2 : ¬(b + ((2:Nat):Int) = -1) := by push_cast; omega
  have h3 : ¬(b + ((3:Nat):Int) = -1) := by push_cast; omega
  have hb1 : ¬(b = -1) := by omega
  simp only [processAttribute, matrixLoop, emittedMatrixRow, if_neg hb1, if_neg h0,
    if_neg h1, if_neg h2, if_neg h3]
  norm_num

/-- C4 witness: the amended trace at base location 3 with two instances. -/
theorem processAttribute_matrix_binding_witness :
    (0:Int) ≤ 3 ∧
    processAttribute ⟨"model", (7:Nat), 2, 16⟩ 3 (some 1) (fun n => n) =
      GLCmd.bindBuffer GL_ARRAY_BUFFER 1 ::
        GLCmd.bufferData GL_ARRAY_BUFFER (if 1 < 2 then (fun n => n) 2 else 7) ::
          (emittedMatrixRow 3 2 0 ++ emittedMatrixRow 3 2 1 ++
            emittedMatrixRow 3 2 2 ++ emittedMatrixRow 3 2 3) :=
  ⟨by decide, processAttribute_matrix_binding "model" 7 2 3 1 (fun n => n) (by decide)⟩

/-- C3 counterexample: the element width is not auto-detected.  An index
accessor declaring the 32-bit UNSIGNED_INT component type over the bytes of
the single 32-bit index 65536 is decoded through the fixed 16-bit path as
the single element 0, not the 65536 a 32-bit view yields. -/
theorem loadModel_index_width_cex :
    acc32.componentType = GL_UNSIGNED_INT
    ∧ loadIndexData [acc32] [bv0] (some 0) bytes32 = some ([0], 1)
    ∧ u32view bytes32 0 1 = [65536]
    ∧ ([0] : List Nat) ≠ [65536] :=
  ⟨rfl, by decide, by decide, by decide⟩

/-- C3 (amended): the index decode never consults the accessor's declared
component type — replacing it changes nothing — and whenever the accessor,
buffer view and byte offset resolve, the result is always the 16-bit view of
accessor.count elements; a 32-bit accessor is silently decoded through the
16-bit path. -/
theorem loadModel_index_fixed_u16 :
    (∀ (a : Accessor) (ct : Nat) (bvs : List BufferView) (idx : Option Nat) (bytes : List Nat),
        loadIndexData [withComponentType a ct] bvs idx bytes = loadIndexData [a] bvs idx bytes)
    ∧ (∀ (a : Accessor) (bvs : List BufferView) (bytes : List Nat) (bi off : Nat)
        (bv : BufferView),
        a.bufferView = some bi → bvs.get? bi = some bv → bv.byteOffset = some off →
        loadIndexData [a] bvs (some 0) bytes = some (u16view bytes off a.count, a.count)) := by
  constructor
  · intro a ct bvs idx bytes
    cases idx with
    | none => rfl
    | some i =>
      cases i with
      | zero => rfl
      | succ n => rfl
  · intro a bvs bytes bi off bv h1 h2 h3
    simp only [loadIndexData, List.get?, h1, h2, h3]

/-- C3 witness: the resolution hypotheses hold of the concrete 32-bit
accessor, buffer view and bytes, and the decode is the 16-bit view. -/
theorem loadModel_index_fixed_u16_witness :
    acc32.bufferView = some 0 ∧ ([bv0].get? 0 = some bv0) ∧ bv0.byteOffset = some 0 ∧
    loadIndexData [acc32] [bv0] (some 0) bytes32
      = some (u16view bytes32 0 acc32.count, acc32.count) :=
  ⟨rfl, rfl, rfl, loadModel_index_fixed_u16.2 acc32 [bv0] bytes32 0 0 bv0 rfl rfl rfl⟩

/-- C5: addMesh on nine position floats with normals omitted produces exactly
one normal vector repeated three times, equal to the normalized cross product
of the triangle's two edge vectors c - a and b - a taken from the vertex
winding (the source computes cross(e2, e1) with e1 = b - a, e2 = c - a). -/
theorem addMesh_flat_normal_single_triangle (rsqrt : ℚ → ℚ)
    (p0 p1 p2 p3 p4 p5 p6 p7 p8 : ℚ) :
    addMeshBuffers rsqrt [p0, p1, p2, p3, p4, p5, p6, p7, p8] none =
      ([p0, p1, p2, p3, p4, p5, p6, p7, p8],
        [(vnormalize rsqrt (vcross (vsub ⟨p6, p7, p8⟩ ⟨p0, p1, p2⟩)
            (vsub ⟨p3, p4, p5⟩ ⟨p0, p1, p2⟩))).x,
         (vnormalize rsqrt (vcross (vsub ⟨p6, p7, p8⟩ ⟨p0, p1, p2⟩)
            (vsub ⟨p3, p4, p5⟩ ⟨p0, p1, p2⟩))).y,
         (vnormalize rsqrt (vcross (vsub ⟨p6, p7, p8⟩ ⟨p0, p1, p2⟩)
            (vsub ⟨p3, p4, p5⟩ ⟨p0, p1, p2⟩))).z,
         (vnormalize rsqrt (vcross (vsub ⟨p6, p7, p8⟩ ⟨p0, p1, p2⟩)
            (vsub ⟨p3, p4, p5⟩ ⟨p0, p1, p2⟩))).x,
         (vnormalize rsqrt (vcross (vsub ⟨p6, p7, p8⟩ ⟨p0, p1, p2⟩)
            (vsub ⟨p3, p4, p5⟩ ⟨p0, p1, p2⟩))).y,
         (vnormalize rsqrt (vcross (vsub ⟨p6, p7, p8⟩ ⟨p0, p1, p2⟩)
            (vsub ⟨p3, p4, p5⟩ ⟨p0, p1, p2⟩))).z,
         (vnormalize rsqrt (vcross (vsub ⟨p6, p7, p8⟩ ⟨p0, p1, p2⟩)
            (vsub ⟨p3, p4, p5⟩ ⟨p0, p1, p2⟩))).x,
         (vnormalize rsqrt (vcross (vsub ⟨p6, p7, p8⟩ ⟨p0, p1, p2⟩)
            (vsub ⟨p3, p4, p5⟩ ⟨p0, p1, p2⟩))).y,
         (vnormalize rsqrt (vcross (vsub ⟨p6, p7, p8⟩ ⟨p0, p1, p2⟩)
            (vsub ⟨p3, p4, p5⟩ ⟨p0, p1, p2⟩))).z]) := by
  simp [addMeshBuffers, triangleNormal, triVert, List.range_succ]

/-- C10: addMesh truncates the positions array to the prefix of length
floor(floor(length / 3) / 3) * 9 before creating the mesh entity, and that
length is the largest whole-triangle multiple of 9 not exceeding the original
length. -/
theorem addMesh_truncates_positions (rsqrt : ℚ → ℚ) (ps : List ℚ)
    (suppliedNormals : Option (List ℚ)) :
    (addMeshBuffers rsqrt ps suppliedNormals).1 = ps.take (ps.length / 3 / 3 * 9)
    ∧ (addMeshBuffers rsqrt ps suppliedNormals).1.length = ps.length / 3 / 3 * 9
    ∧ ps.length / 3 / 3 * 9 = 9 * (ps.length / 9) := by
  have hdd : ps.length / 3 / 3 = ps.length / 9 := by
    rw [Nat.div_div_eq_div_mul]
  have hle : ps.length / 3 / 3 * 9 ≤ ps.length := by
    rw [hdd]
    exact Nat.div_mul_le_self _ _
  have h1 : (addMeshBuffers rsqrt ps suppliedNormals).1 = ps.take (ps.length / 3 / 3 * 9) := rfl
  refine ⟨h1, ?_, ?_⟩
  · rw [h1, List.length_take]
    omega
  · rw [hdd, Nat.mul_comm]

/-- C8 counterexample: the encoded pointer-move message [0, 0, 12, 34] is
decodable by the protocol-layout decoder, but the receiving side's
handleConnection has no domEvent case and merely falls through to logging:
it recovers no event kind and no coordinates, refuting the round-trip as
stated. -/
theorem pointer_roundtrip_receiver_cex :
    decodeDomEventSpec (encodePointerMove 12 34) = some (DomEvent.pointermove 12 34)
    ∧ handleConnection (encodePointerMove 12 34) = RecvResult.loggedOnly :=
  ⟨by decide, by decide⟩

/-- C8 (amended): every pointer-move at (x, y) is encoded as the message
[0, 0, x, y]; the message layout determines the event uniquely, so the
spec-modelled protocol decoder recovers pointermove with the same x and y;
but the in-repo receiving handler ignores domEvent messages (it handles only
attachCanvas and logs everything else). -/
theorem pointer_move_roundtrip_amended (x y : Int) :
    encodePointerMove x y
      = [MVal.num MessageType.domEvent, MVal.num EventTypes.pointermove, MVal.num x, MVal.num y]
    ∧ decodeDomEventSpec (encodePointerMove x y) = some (DomEvent.pointermove x y)
    ∧ handleConnection (encodePointerMove x y) = RecvResult.loggedOnly := by
  refine ⟨rfl, ?_, ?_⟩
  · simp [decodeDomEventSpec, encodePointerMove, MessageType.domEvent, EventTypes.pointermove]
  · simp [handleConnection, encodePointerMove, MessageType.attachCanvas, MessageType.domEvent]

/-- A worker whose readiness flag is set absorbs every further message with no
action. -/
theorem runWorker_ready_aux : ∀ (msgs : List (List Nat)) (acc : List WorkerAction),
    msgs.foldl
      (fun st m =>
        let r := workerOnMessage st.1 m
        (r.1, st.2 ++ r.2.toList))
      (true, acc) = (true, acc) := by
  intro msgs
  induction msgs with
  | nil => intro acc; rfl
  | cons m t ih =>
    intro acc
    simp only [List.foldl_cons, workerOnMessage]
    simpa using ih acc

/-- C9: over every delivered message sequence, the bootstrap body runs at most
once — exactly on the first message, which flips the readiness flag — and an
already-ready worker ignores every message. -/
theorem worker_bootstrap_at_most_once :
    (∀ (msgs : List (List Nat)),
        (runWorkerMessages false msgs).2 = (msgs.take 1).map bootOf
        ∧ (runWorkerMessages false msgs).2.length ≤ 1)
    ∧ (∀ (m : List Nat) (msgs : List (List Nat)),
        (runWorkerMessages false (m :: msgs)).1 = true)
    ∧ (∀ (m : List Nat), workerOnMessage true m = (true, none)) := by
  have hstep : ∀ (m : List Nat) (msgs : List (List Nat)),
      runWorkerMessages false (m :: msgs) = (true, [bootOf m]) := by
    intro m msgs
    simp only [runWorkerMessages, List.foldl_cons, workerOnMessage]
    simpa using runWorker_ready_aux msgs [bootOf m]
  refine ⟨?_, ?_, ?_⟩
  · intro msgs
    cases msgs with
    | nil => exact ⟨rfl, by decide⟩
    | cons m t =>
      rw [hstep m t]
      exact ⟨rfl, by simp⟩
  · intro m msgs
    rw [hstep m msgs]
  · intro m
    rfl

end Yawn
